import Mathlib

/-!
Verification of the provider composition engine of a code-intelligence
extension suite. The engine (src/shared/providers.ts) combines three
backends — a precise (LSIF) index, an optional protocol (LSP) backend and a
heuristic (search) backend — into four operation composers: definition,
references, hover and document highlights.

Async generators are embedded as pure functions producing the list of
yielded values, with the per-invocation `TelemetryEmitter` threaded
explicitly and the list of actually emitted telemetry events recorded.
Spec vocabulary maps onto the code's event names as follows:
precise = lsif, protocol = lsp, heuristic = search (so `preciseDefinitions`
is the code's "lsifDefinitions", and so on).
-/

namespace CodeIntel

/-- Embedding of sourcegraph.Location for the purposes of the composers: the
URI parts read by the same-file fingerprint `file` (host, pathname, hash), an
abstract range identifier, and the imprecise-badge attachment (added by
`badgeValues`; absent on values as produced by backends). -/
structure Location where
  host : String
  pathname : String
  hash : String
  range : Nat
  badge : Bool := false
deriving DecidableEq, Repr

/-- Embedding of sourcegraph.Definition = Location | Location[] | null. -/
inductive Definition where
  | nullDef : Definition
  | loc (l : Location) : Definition
  | locs (ls : List Location) : Definition
deriving DecidableEq, Repr

/-- Modelled from the spec: helper `asArray` from src/shared/util/helpers.ts
(not under src/): null becomes [], a single value becomes a singleton, an
array stays itself. -/
def asArray : Definition → List Location
  | Definition.nullDef => []
  | Definition.loc l => [l]
  | Definition.locs ls => ls

/-- Modelled from the spec: helper `nonEmpty` from src/shared/util/helpers.ts
(not under src/): true iff the value is non-null and, when an array,
non-empty. -/
def nonEmpty : Definition → Bool
  | Definition.nullDef => false
  | Definition.loc _ => true
  | Definition.locs ls => !ls.isEmpty

/-- Embedding of a references/locations batch: Location[] | null. -/
abbrev RefBatch := Option (List Location)

/-- Version of `asArray` at type Location[] | null. -/
def asArrayRefs : RefBatch → List Location
  | none => []
  | some ls => ls

/-- Version of `nonEmpty` at type Location[] | null. -/
def nonEmptyRefs : RefBatch → Bool
  | none => false
  | some ls => !ls.isEmpty

/-- Attaching the imprecise badge to one location ({ ...element, badge }). -/
def setBadge (l : Location) : Location :=
  { l with badge := true }

/-- Embedding of `badgeValues` (src/shared/providers.ts): adds the imprecise
badge to a single value or to each element of a list, preserving shape
(`mapArrayish`). -/
def badgeValues : Definition → Definition
  | Definition.nullDef => Definition.nullDef
  | Definition.loc l => Definition.loc (setBadge l)
  | Definition.locs ls => Definition.locs (ls.map setBadge)

/-- Embedding of `file` (src/shared/providers.ts line 232): an opaque value
equal for all locations within a file and different from other files —
host, pathname and hash joined by spaces. -/
def file (location_ : Location) : String :=
  location_.host ++ " " ++ location_.pathname ++ " " ++ location_.hash

/-- Modelled from the spec: the per-invocation TelemetryEmitter
(src/shared/telemetry.ts, not under src/): it records which event names have
already been fired. -/
structure TelemetryEmitter where
  emitted : List String
deriving DecidableEq, Repr

/-- Modelled from the spec: `emitOnce(name)` performs the emission side
effect only on the first call with a given name on a given instance. The
second component is the list of emissions actually performed by this call. -/
def TelemetryEmitter.emitOnce (e : TelemetryEmitter) (name : String) :
    TelemetryEmitter × List String :=
  if name ∈ e.emitted then (e, [])
  else ({ emitted := name :: e.emitted }, [name])

/-- Fresh emitter, as built at the start of every composer invocation. -/
def TelemetryEmitter.new : TelemetryEmitter :=
  { emitted := [] }

/-- Embedding of the precise (LSIF) backend's single-shot result
(`DefinitionAndHover`): a definition and an optional hover. -/
structure DefinitionAndHover where
  definition : Definition
  hover : Option String
deriving DecidableEq, Repr

/-- Output of a generator loop: the values it yielded, the telemetry
emissions it performed, and the emitter state it leaves behind. -/
structure GenOut (α : Type) where
  yields : List α
  events : List String
  emitter : TelemetryEmitter
deriving Repr

/-- Output of the precise loop of the definition composer, which additionally
tracks the `hasPreciseResult` flag set on every iteration. -/
structure DefPreciseOut where
  yields : List Definition
  events : List String
  emitter : TelemetryEmitter
  hasPreciseResult : Bool
deriving Repr

/-- Loop over `asArray(lsifWrapper.definition || [])` in
`createDefinitionProvider` (lines 189-193): each location emits
"lsifDefinitions" once, is yielded, and sets `hasPreciseResult`. -/
def defPreciseLoop : List Location → TelemetryEmitter → DefPreciseOut
  | [], em => ⟨[], [], em, false⟩
  | l :: rest, em =>
    let e := em.emitOnce "lsifDefinitions"
    let next := defPreciseLoop rest e.1
    ⟨Definition.loc l :: next.yields, e.2 ++ next.events, next.emitter, true⟩

/-- Loop over the LSP provider in `createDefinitionProvider` (lines 201-211):
emits "lspDefinitions" once for non-empty results, yields every result
unchanged. -/
def defLspLoop : List Definition → TelemetryEmitter → GenOut Definition
  | [], em => ⟨[], [], em⟩
  | r :: rest, em =>
    let e := if nonEmpty r then em.emitOnce "lspDefinitions" else (em, [])
    let next := defLspLoop rest e.1
    ⟨r :: next.yields, e.2 ++ next.events, next.emitter⟩

/-- Loop over the search provider in `createDefinitionProvider`
(lines 219-226): emits "searchDefinitions" once for non-empty results,
yields each result with the imprecise badge attached. -/
def defSearchLoop : List Definition → TelemetryEmitter → GenOut Definition
  | [], em => ⟨[], [], em⟩
  | r :: rest, em =>
    let e := if nonEmpty r then em.emitOnce "searchDefinitions" else (em, [])
    let next := defSearchLoop rest e.1
    ⟨badgeValues r :: next.yields, e.2 ++ next.events, next.emitter⟩

/-- One full run of the definition composer: yielded values, telemetry
emissions, and whether the LSP / search backends were invoked (their
generator entered) during this invocation. -/
structure DefRun where
  yields : List Definition
  events : List String
  lspInvoked : Bool
  searchInvoked : Bool
deriving Repr

/-- Definition locations of the precise single-shot answer:
`asArray(lsifWrapper.definition || [])` guarded by the wrapper null check
(src/shared/providers.ts lines 187-189). -/
def preciseDefinitions (lsifWrapper : Option DefinitionAndHover) : List Location :=
  match lsifWrapper with
  | none => []
  | some w => asArray w.definition

/-- Embedding of the generator body of `createDefinitionProvider`
(src/shared/providers.ts lines 174-229). `lsifWrapper` is the precise
backend's single-shot answer, `lspResults` the value sequence the optional
LSP provider would yield, `searchResults` the sequence the search provider
would yield. -/
def createDefinitionProvider (lsifWrapper : Option DefinitionAndHover)
    (searchResults : List Definition) (lspResults : Option (List Definition)) :
    DefRun :=
  let em0 := TelemetryEmitter.new
  let p := defPreciseLoop (preciseDefinitions lsifWrapper) em0
  if p.hasPreciseResult then
    { yields := p.yields, events := p.events
      lspInvoked := false, searchInvoked := false }
  else
    match lspResults with
    | some rs =>
      let q := defLspLoop rs p.emitter
      { yields := p.yields ++ q.yields, events := p.events ++ q.events
        lspInvoked := true, searchInvoked := false }
    | none =>
      let q := defSearchLoop searchResults p.emitter
      { yields := p.yields ++ q.yields, events := p.events ++ q.events
        lspInvoked := false, searchInvoked := true }

/-- Output of the precise loop of the references composer, which additionally
tracks the `lsifResults` variable: the last non-empty batch yielded by the
precise backend (reassigned, not accumulated, on every non-empty batch). -/
structure RefsPreciseOut where
  yields : List (List Location)
  events : List String
  emitter : TelemetryEmitter
  lsifResults : List Location
deriving Repr

/-- Loop over the LSIF provider in `createReferencesProvider` (lines
256-262): non-empty batches emit "lsifReferences" once, are yielded, and
overwrite `lsifResults`; empty or null batches do nothing. -/
def refsPreciseLoop : List RefBatch → TelemetryEmitter → List Location → RefsPreciseOut
  | [], em, acc => ⟨[], [], em, acc⟩
  | b :: rest, em, acc =>
    if nonEmptyRefs b then
      let e := em.emitOnce "lsifReferences"
      let next := refsPreciseLoop rest e.1 (asArrayRefs b)
      ⟨asArrayRefs b :: next.yields, e.2 ++ next.events, next.emitter, next.lsifResults⟩
    else
      refsPreciseLoop rest em acc

/-- Loop over the LSP provider in `createReferencesProvider` (lines
265-276): empty batches are skipped (`continue`), a non-empty batch emits
"lspReferences" once and yields `lsifResults.concat(filteredResults)`. -/
def refsLspLoop (lsifResults : List Location) :
    List RefBatch → TelemetryEmitter → GenOut (List Location)
  | [], em => ⟨[], [], em⟩
  | b :: rest, em =>
    let filteredResults := asArrayRefs b
    if filteredResults.isEmpty then
      refsLspLoop lsifResults rest em
    else
      let e := em.emitOnce "lspReferences"
      let next := refsLspLoop lsifResults rest e.1
      ⟨(lsifResults ++ filteredResults) :: next.yields, e.2 ++ next.events, next.emitter⟩

/-- Loop over the search provider in `createReferencesProvider` (lines
286-301): each batch is filtered to drop locations whose `file` fingerprint
is in `lsifFiles`; a batch emptied by the filter is skipped (`continue`);
otherwise "searchReferences" is emitted once and
`lsifResults.concat(badgeValues(filteredResults))` is yielded. -/
def refsSearchLoop (lsifResults : List Location) (lsifFiles : List String) :
    List RefBatch → TelemetryEmitter → GenOut (List Location)
  | [], em => ⟨[], [], em⟩
  | b :: rest, em =>
    let filteredResults := (asArrayRefs b).filter (fun l => !(lsifFiles.contains (file l)))
    if filteredResults.isEmpty then
      refsSearchLoop lsifResults lsifFiles rest em
    else
      let e := em.emitOnce "searchReferences"
      let next := refsSearchLoop lsifResults lsifFiles rest e.1
      ⟨(lsifResults ++ filteredResults.map setBadge) :: next.yields,
        e.2 ++ next.events, next.emitter⟩

/-- One full run of the references composer. `lsifResults` and `lsifFiles`
record the values of the corresponding local variables (`lsifFiles` is only
computed on the search path; it is [] on the LSP path where the code never
builds it). -/
structure RefsRun where
  yields : List (List Location)
  events : List String
  lsifResults : List Location
  lsifFiles : List String
  lspInvoked : Bool
  searchInvoked : Bool
deriving Repr

/-- Embedding of the generator body of `createReferencesProvider`
(src/shared/providers.ts lines 242-304). `lsifBatches`, `searchBatches` and
the optional `lspBatches` are the batch sequences the three backends would
yield. -/
def createReferencesProvider (lsifBatches : List RefBatch)
    (searchBatches : List RefBatch) (lspBatches : Option (List RefBatch)) :
    RefsRun :=
  let em0 := TelemetryEmitter.new
  let p := refsPreciseLoop lsifBatches em0 []
  match lspBatches with
  | some bs =>
    let q := refsLspLoop p.lsifResults bs p.emitter
    { yields := p.yields ++ q.yields, events := p.events ++ q.events
      lsifResults := p.lsifResults, lsifFiles := []
      lspInvoked := true, searchInvoked := false }
  | none =>
    let lsifFiles := p.lsifResults.map file
    let q := refsSearchLoop p.lsifResults lsifFiles searchBatches p.emitter
    { yields := p.yields ++ q.yields, events := p.events ++ q.events
      lsifResults := p.lsifResults, lsifFiles := lsifFiles
      lspInvoked := false, searchInvoked := true }

/-- Reference function: the last non-empty batch of a batch sequence (as an
array), or `acc` when none is non-empty. -/
def lastNonEmpty (acc : List Location) : List RefBatch → List Location
  | [] => acc
  | b :: rest => lastNonEmpty (if nonEmptyRefs b then asArrayRefs b else acc) rest

/-- Modelled from the spec: the hover alert constants of
src/shared/hover-alerts.ts (not under src/), used as opaque provenance
tags. -/
inductive Alert where
  | lsif : Alert
  | lsifPartialHoverOnly : Alert
  | lsifPartialDefinitionOnly : Alert
  | lsp : Alert
  | searchLSIFSupportNone : Alert
  | searchLSIFSupportExperimental : Alert
  | searchLSIFSupportRobust : Alert
deriving DecidableEq, Repr

/-- Embedding of the LSIFSupport enumeration of the language spec. -/
inductive LSIFSupport where
  | none : LSIFSupport
  | experimental : LSIFSupport
  | robust : LSIFSupport
deriving DecidableEq, Repr

/-- Embedding of a yielded hover value: the hover contents together with the
optional alerts attached by the composer ({ ...hover, alerts }). -/
structure HoverResult where
  contents : String
  alerts : Option (List Alert) := none
deriving DecidableEq, Repr

/-- Loop over the LSP provider in `createHoverProvider` (lines 368-376):
null results are skipped; a non-null result emits "lspHover" once and is
yielded with the pending alerts, which are then cleared. -/
def hoverLspLoop : List (Option String) → Option (List Alert) → TelemetryEmitter →
    GenOut HoverResult
  | [], _, em => ⟨[], [], em⟩
  | Option.none :: rest, alerts, em => hoverLspLoop rest alerts em
  | Option.some h :: rest, alerts, em =>
    let e := em.emitOnce "lspHover"
    let next := hoverLspLoop rest Option.none e.1
    ⟨{ contents := h, alerts := alerts } :: next.yields, e.2 ++ next.events, next.emitter⟩

/-- Loop over the search hover provider in `createHoverProvider` (lines
386-393): null results are skipped; a non-null result emits "searchHover"
once and is yielded with the pending alerts, which are then cleared. -/
def hoverSearchLoop : List (Option String) → Option (List Alert) → TelemetryEmitter →
    GenOut HoverResult
  | [], _, em => ⟨[], [], em⟩
  | Option.none :: rest, alerts, em => hoverSearchLoop rest alerts em
  | Option.some h :: rest, alerts, em =>
    let e := em.emitOnce "searchHover"
    let next := hoverSearchLoop rest Option.none e.1
    ⟨{ contents := h, alerts := alerts } :: next.yields, e.2 ++ next.events, next.emitter⟩

/-- Embedding of the partial-precise-data probe (lines 343-348): iterate the
search definition provider and stop at the first non-empty result. -/
def searchDefProbe : List Definition → Bool
  | [] => false
  | r :: rest => if nonEmpty r then true else searchDefProbe rest

/-- One full run of the hover composer. `searchDefProbed` records whether the
search definition probe was started; the two invoked flags record whether the
LSP / search hover generators were entered. -/
structure HoverRun where
  yields : List HoverResult
  events : List String
  searchDefProbed : Bool
  lspInvoked : Bool
  searchHoverInvoked : Bool
deriving Repr

/-- Embedding of the `searchAlerts` selection in `createHoverProvider`
(lines 321-328), choosing a static alert from the language's declared LSIF
support level. -/
def searchAlertsFor : LSIFSupport → Option (List Alert)
  | LSIFSupport.none => some [Alert.searchLSIFSupportNone]
  | LSIFSupport.experimental => some [Alert.searchLSIFSupportExperimental]
  | LSIFSupport.robust => some [Alert.searchLSIFSupportRobust]

/-- Embedding of the fallback part of the hover generator (lines 367-393):
the LSP branch when it is configured, else the search hover branch with the
initial alert chosen from `hasPreciseDefinition` / `searchAlerts`. -/
def hoverFallback (searchAlerts : Option (List Alert)) (hasPreciseDefinition : Bool)
    (searchHoverResults : List (Option String))
    (lspResults : Option (List (Option String))) (em : TelemetryEmitter)
    (probed : Bool) : HoverRun :=
  match lspResults with
  | some rs =>
    let q := hoverLspLoop rs (some [Alert.lsp]) em
    { yields := q.yields, events := q.events, searchDefProbed := probed
      lspInvoked := true, searchHoverInvoked := false }
  | none =>
    let alerts :=
      if hasPreciseDefinition then some [Alert.lsifPartialDefinitionOnly] else searchAlerts
    let q := hoverSearchLoop searchHoverResults alerts em
    { yields := q.yields, events := q.events, searchDefProbed := probed
      lspInvoked := false, searchHoverInvoked := true }

/-- Embedding of the generator body of `createHoverProvider`
(src/shared/providers.ts lines 314-396). `lsifWrapper` is the precise
backend's single-shot answer; `searchDefResults` is the sequence the search
definition provider would yield for the partial-data probe;
`searchHoverResults` and the optional `lspResults` are the hover value
sequences of the two fallback backends. -/
def createHoverProvider (lsifSupport : LSIFSupport)
    (lsifWrapper : Option DefinitionAndHover) (searchDefResults : List Definition)
    (searchHoverResults : List (Option String))
    (lspResults : Option (List (Option String))) : HoverRun :=
  let em0 := TelemetryEmitter.new
  let searchAlerts := searchAlertsFor lsifSupport
  match lsifWrapper with
  | none => hoverFallback searchAlerts false searchHoverResults lspResults em0 false
  | some w =>
    match w.hover with
    | some h =>
      let partialPreciseData :=
        if nonEmpty w.definition then false else searchDefProbe searchDefResults
      let alerts :=
        if !partialPreciseData then [Alert.lsif] else [Alert.lsifPartialHoverOnly]
      let e := em0.emitOnce "lsifHover"
      { yields := [{ contents := h, alerts := some alerts }], events := e.2
        searchDefProbed := !nonEmpty w.definition
        lspInvoked := false, searchHoverInvoked := false }
    | none =>
      hoverFallback searchAlerts (nonEmpty w.definition) searchHoverResults lspResults
        em0 false

/-- Embedding of a document-highlights batch: DocumentHighlight[] | null,
with highlights abstracted to identifiers. -/
abbrev HighlightBatch := Option (List Nat)

/-- Loop over the LSIF provider in `createDocumentHighlightProvider` (lines
417-422): null batches are skipped; a non-null batch emits
"lsifDocumentHighlight" once and is yielded verbatim. -/
def dhLoop : List HighlightBatch → TelemetryEmitter → GenOut (List Nat)
  | [], em => ⟨[], [], em⟩
  | Option.none :: rest, em => dhLoop rest em
  | Option.some hs :: rest, em =>
    let e := em.emitOnce "lsifDocumentHighlight"
    let next := dhLoop rest e.1
    ⟨hs :: next.yields, e.2 ++ next.events, next.emitter⟩

/-- One full run of the document-highlights composer. -/
structure HighlightsRun where
  yields : List (List Nat)
  events : List String
  lspInvoked : Bool
  searchInvoked : Bool
deriving DecidableEq, Repr

/-- Embedding of the generator body of `createDocumentHighlightProvider`
(src/shared/providers.ts lines 405-425). The search and LSP providers are
received but the body never touches them. -/
def createDocumentHighlightProvider (lsifBatches : List HighlightBatch)
    (searchBatches : List HighlightBatch)
    (lspBatches : Option (List HighlightBatch)) : HighlightsRun :=
  let em0 := TelemetryEmitter.new
  let p := dhLoop lsifBatches em0
  { yields := p.yields, events := p.events
    lspInvoked := false, searchInvoked := false }

/-- Configuration snapshot: a list of field-name / value pairs. -/
abbrev Config := List (String × String)

/-- Lookup of a field in a configuration snapshot. -/
def getField (cfg : Config) (f : String) : Option String :=
  match cfg with
  | [] => none
  | (k, v) :: rest => if k = f then some v else getField rest f

/-- Shallow comparison of the tracked fields of two snapshots: true iff some
tracked field differs. -/
def changedFields (tracked : List String) (prev next : Config) : Bool :=
  tracked.any (fun f => decide (getField prev f ≠ getField next f))

/-- Observable effects of the reconfiguration controller: a `registerFn`
call receiving a full snapshot, or the disposal of a registration handle
(handles are numbered in order of registration). -/
inductive RegEvent where
  | register (snapshot : Config) : RegEvent
  | dispose (handle : Nat) : RegEvent
deriving DecidableEq, Repr

/-- State of the reconfiguration controller between configuration
emissions: the stored previous snapshot and the index of the active
handle. -/
structure RegState where
  snapshot : Config
  handle : Nat
deriving DecidableEq, Repr

/-- Modelled from the spec: one configuration-change step of
`reregisterOnChange` (src/shared/lsp/features/util.ts, not under src/;
behavior fixed by spec section 4.3 and src/shared/lsp/features/util.test.ts):
compare only tracked fields against the stored snapshot; on no difference do
nothing; on a difference dispose the current handle, call `registerFn` with
the full new snapshot, store the new handle and the full new snapshot. -/
def reregisterStep (tracked : List String) (st : RegState) (c : Config) :
    RegState × List RegEvent :=
  if changedFields tracked st.snapshot c then
    ({ snapshot := c, handle := st.handle + 1 },
      [RegEvent.dispose st.handle, RegEvent.register c])
  else
    (st, [])

/-- Folding `reregisterStep` over a sequence of emitted snapshots. -/
def reregisterLoop (tracked : List String) (st : RegState) :
    List Config → List RegEvent × RegState
  | [] => ([], st)
  | c :: rest =>
    let s := reregisterStep tracked st c
    let next := reregisterLoop tracked s.1 rest
    (s.2 ++ next.1, next.2)

/-- Modelled from the spec: a run of `reregisterOnChange` over the initial
snapshot and the subsequently emitted ones: register immediately with the
initial snapshot (handle 0), then process each update. Returns the event
trace and the index of the handle active at the end. -/
def reregisterOnChange (tracked : List String) (initial : Config)
    (updates : List Config) : List RegEvent × Nat :=
  let st0 : RegState := { snapshot := initial, handle := 0 }
  let r := reregisterLoop tracked st0 updates
  (RegEvent.register initial :: r.1, r.2.handle)

/-- Modelled from the spec: the full lifecycle of the controller — a run of
`reregisterOnChange` followed by disposing the returned controller, which
disposes the currently active handle. -/
def controllerLifecycle (tracked : List String) (initial : Config)
    (updates : List Config) : List RegEvent :=
  let r := reregisterOnChange tracked initial updates
  r.1 ++ [RegEvent.dispose r.2]

/-- Reference function: the snapshots that actually trigger
re-registration, i.e. the subsequence of updates on which some tracked field
differs from the previously stored snapshot. -/
def triggeringSnapshots (tracked : List String) (prev : Config) :
    List Config → List Config
  | [] => []
  | c :: rest =>
    if changedFields tracked prev c then c :: triggeringSnapshots tracked c rest
    else triggeringSnapshots tracked prev rest

/-- Reference trace shape: register s0, dispose h, register s1,
dispose h+1, ..., register sn, dispose h+n. -/
def canonicalTrace : Nat → List Config → List RegEvent
  | _, [] => []
  | h, c :: rest =>
    RegEvent.register c :: RegEvent.dispose h :: canonicalTrace (h + 1) rest

/-- Reference trace shape starting after an initial registration: dispose h,
register s1, dispose h+1, register s2, ..., ending with a final dispose. -/
def interTrace : Nat → List Config → List RegEvent
  | h, [] => [RegEvent.dispose h]
  | h, c :: rest =>
    RegEvent.dispose h :: RegEvent.register c :: interTrace (h + 1) rest

/-- Count of registerFn calls in a trace. -/
def registerCount : List RegEvent → Nat
  | [] => 0
  | RegEvent.register _ :: rest => registerCount rest + 1
  | RegEvent.dispose _ :: rest => registerCount rest

/-- Count of disposals of a given handle in a trace. -/
def disposeCount (h : Nat) : List RegEvent → Nat
  | [] => 0
  | RegEvent.register _ :: rest => disposeCount h rest
  | RegEvent.dispose k :: rest =>
    (if k = h then 1 else 0) + disposeCount h rest

/-- Count of all disposals in a trace. -/
def disposeTotal : List RegEvent → Nat
  | [] => 0
  | RegEvent.register _ :: rest => disposeTotal rest
  | RegEvent.dispose _ :: rest => disposeTotal rest + 1

/-- Calling `emitOnce` with the same name n times in a row on one emitter
instance; the second component collects all emission side effects actually
performed. -/
def emitN (name : String) : Nat → TelemetryEmitter → TelemetryEmitter × List String
  | 0, em => (em, [])
  | n + 1, em =>
    let e := em.emitOnce name
    let next := emitN name n e.1
    (next.1, e.2 ++ next.2)

/-- Concrete location in file a.ts, used by witnesses. -/
def locA : Location :=
  { host := "github.com", pathname := "/repo/a.ts", hash := "", range := 1 }

/-- Concrete location in file b.ts, used by witnesses. -/
def locB : Location :=
  { host := "github.com", pathname := "/repo/b.ts", hash := "", range := 2 }

/-- Concrete location in file c.ts, used by witnesses. -/
def locC : Location :=
  { host := "github.com", pathname := "/repo/c.ts", hash := "", range := 3 }

/-- Concrete location in file a.ts with another range, used by witnesses. -/
def locA2 : Location :=
  { host := "github.com", pathname := "/repo/a.ts", hash := "", range := 9 }

/-- Concrete precise wrapper with two definition locations, used by
witnesses. -/
def exampleWrapper : DefinitionAndHover :=
  { definition := Definition.locs [locA, locB], hover := some "hoverText" }

/-- Reference function: the batches the precise loop of the references
composer yields — every non-empty batch, as an array. -/
def preciseRefYields (bs : List RefBatch) : List (List Location) :=
  bs.filterMap (fun b => if nonEmptyRefs b then some (asArrayRefs b) else none)

/-- Reference function: the batches the LSP loop of the references composer
yields — the precise results concatenated with each non-empty LSP batch,
empty batches skipped. -/
def lspRefYields (lsifResults : List Location) (bs : List RefBatch) :
    List (List Location) :=
  bs.filterMap (fun b =>
    if (asArrayRefs b).isEmpty then none else some (lsifResults ++ asArrayRefs b))

/-- Reference function: a search batch filtered to drop locations in covered
files. -/
def filteredSearchBatch (lsifFiles : List String) (b : RefBatch) : List Location :=
  (asArrayRefs b).filter (fun l => !(lsifFiles.contains (file l)))

/-- Reference function: the batches the search loop of the references
composer yields — the precise results concatenated with each badged filtered
batch, batches emptied by filtering skipped. -/
def searchRefYields (lsifResults : List Location) (lsifFiles : List String)
    (bs : List RefBatch) : List (List Location) :=
  bs.filterMap (fun b =>
    if (filteredSearchBatch lsifFiles b).isEmpty then none
    else some (lsifResults ++ (filteredSearchBatch lsifFiles b).map setBadge))

end CodeIntel

namespace CodeIntel

theorem defPreciseLoop_yields (locs : List Location) (em : TelemetryEmitter) :
    (defPreciseLoop locs em).yields = locs.map Definition.loc := by
  induction locs generalizing em with
  | nil => rfl
  | cons l rest ih => simp [defPreciseLoop, ih]

theorem defPreciseLoop_flag (locs : List Location) (em : TelemetryEmitter) :
    (defPreciseLoop locs em).hasPreciseResult = !locs.isEmpty := by
  cases locs with
  | nil => rfl
  | cons l rest => rfl

theorem defPreciseLoop_events_done (locs : List Location) (em : TelemetryEmitter)
    (h : "lsifDefinitions" ∈ em.emitted) :
    (defPreciseLoop locs em).events = [] := by
  induction locs generalizing em with
  | nil => rfl
  | cons l rest ih => simp [defPreciseLoop, TelemetryEmitter.emitOnce, h, ih em h]

theorem defPreciseLoop_events (locs : List Location) (em : TelemetryEmitter)
    (h : "lsifDefinitions" ∉ em.emitted) :
    (defPreciseLoop locs em).events = if locs.isEmpty then [] else ["lsifDefinitions"] := by
  cases locs with
  | nil => rfl
  | cons l rest =>
    simp [defPreciseLoop, TelemetryEmitter.emitOnce, h,
      defPreciseLoop_events_done rest _ (List.mem_cons_self _ _)]

theorem defLspLoop_yields (l : List Definition) (em : TelemetryEmitter) :
    (defLspLoop l em).yields = l := by
  induction l generalizing em with
  | nil => rfl
  | cons r rest ih =>
    cases hr : nonEmpty r <;> simp [defLspLoop, hr, ih]

theorem defLspLoop_events_done (l : List Definition) (em : TelemetryEmitter)
    (h : "lspDefinitions" ∈ em.emitted) :
    (defLspLoop l em).events = [] := by
  induction l generalizing em with
  | nil => rfl
  | cons r rest ih =>
    cases hr : nonEmpty r <;>
      simp [defLspLoop, hr, TelemetryEmitter.emitOnce, h, ih em h]

theorem defLspLoop_events (l : List Definition) (em : TelemetryEmitter)
    (h : "lspDefinitions" ∉ em.emitted) :
    (defLspLoop l em).events = if l.any nonEmpty then ["lspDefinitions"] else [] := by
  induction l generalizing em with
  | nil => rfl
  | cons r rest ih =>
    cases hr : nonEmpty r with
    | false => simp [defLspLoop, hr, ih em h]
    | true =>
      simp [defLspLoop, hr, TelemetryEmitter.emitOnce, h,
        defLspLoop_events_done rest _ (List.mem_cons_self _ _)]

theorem defSearchLoop_yields (l : List Definition) (em : TelemetryEmitter) :
    (defSearchLoop l em).yields = l.map badgeValues := by
  induction l generalizing em with
  | nil => rfl
  | cons r rest ih =>
    cases hr : nonEmpty r <;> simp [defSearchLoop, hr, ih]

theorem defSearchLoop_events_done (l : List Definition) (em : TelemetryEmitter)
    (h : "searchDefinitions" ∈ em.emitted) :
    (defSearchLoop l em).events = [] := by
  induction l generalizing em with
  | nil => rfl
  | cons r rest ih =>
    cases hr : nonEmpty r <;>
      simp [defSearchLoop, hr, TelemetryEmitter.emitOnce, h, ih em h]

theorem defSearchLoop_events (l : List Definition) (em : TelemetryEmitter)
    (h : "searchDefinitions" ∉ em.emitted) :
    (defSearchLoop l em).events = if l.any nonEmpty then ["searchDefinitions"] else [] := by
  induction l generalizing em with
  | nil => rfl
  | cons r rest ih =>
    cases hr : nonEmpty r with
    | false => simp [defSearchLoop, hr, ih em h]
    | true =>
      simp [defSearchLoop, hr, TelemetryEmitter.emitOnce, h,
        defSearchLoop_events_done rest _ (List.mem_cons_self _ _)]

/-- C1: when the precise backend's single-shot lookup returns one or more
definition locations, the definition composer yields exactly those locations,
never invokes the LSP (protocol) or search (heuristic) backend, and the
"lsifDefinitions" (preciseDefinitions) event fires exactly once. -/
theorem C1_precise_definitions_short_circuit (w : DefinitionAndHover)
    (searchResults : List Definition) (lspResults : Option (List Definition))
    (h : asArray w.definition ≠ []) :
    (createDefinitionProvider (some w) searchResults lspResults).yields
        = (asArray w.definition).map Definition.loc
    ∧ (createDefinitionProvider (some w) searchResults lspResults).events
        = ["lsifDefinitions"]
    ∧ (createDefinitionProvider (some w) searchResults lspResults).lspInvoked = false
    ∧ (createDefinitionProvider (some w) searchResults lspResults).searchInvoked = false := by
  have hne : (asArray w.definition).isEmpty = false := by
    simpa [List.isEmpty_iff] using h
  have hev : (defPreciseLoop (asArray w.definition) TelemetryEmitter.new).events
      = ["lsifDefinitions"] := by
    rw [defPreciseLoop_events _ _ (by decide)]
    simp [hne]
  simp only [createDefinitionProvider, defPreciseLoop_flag, preciseDefinitions, hne]
  simp [defPreciseLoop_yields, hev]

/-- Closed witness for C1 at a concrete input. -/
theorem C1_precise_definitions_short_circuit_witness :
    asArray exampleWrapper.definition ≠ []
    ∧ ((createDefinitionProvider (some exampleWrapper) [Definition.loc locC]
          (some [Definition.loc locA2])).yields
        = (asArray exampleWrapper.definition).map Definition.loc
      ∧ (createDefinitionProvider (some exampleWrapper) [Definition.loc locC]
          (some [Definition.loc locA2])).events = ["lsifDefinitions"]
      ∧ (createDefinitionProvider (some exampleWrapper) [Definition.loc locC]
          (some [Definition.loc locA2])).lspInvoked = false
      ∧ (createDefinitionProvider (some exampleWrapper) [Definition.loc locC]
          (some [Definition.loc locA2])).searchInvoked = false) :=
  ⟨by decide, C1_precise_definitions_short_circuit exampleWrapper
    [Definition.loc locC] (some [Definition.loc locA2]) (by decide)⟩

/-- C4: when the precise backend returns no definitions and an LSP
(protocol) backend is configured, every value the LSP backend yields is
forwarded to the caller unchanged (including empty values), the
"lspDefinitions" (protocolDefinitions) event is emitted exactly when some
yielded value is non-empty (and then only once), and the search (heuristic)
backend is never invoked. -/
theorem C4_lsp_definitions_forwarded (lsifWrapper : Option DefinitionAndHover)
    (searchResults : List Definition) (rs : List Definition)
    (h : preciseDefinitions lsifWrapper = []) :
    (createDefinitionProvider lsifWrapper searchResults (some rs)).yields = rs
    ∧ (createDefinitionProvider lsifWrapper searchResults (some rs)).events
        = (if rs.any nonEmpty then ["lspDefinitions"] else [])
    ∧ (createDefinitionProvider lsifWrapper searchResults (some rs)).lspInvoked = true
    ∧ (createDefinitionProvider lsifWrapper searchResults (some rs)).searchInvoked
        = false := by
  have hev := defLspLoop_events rs TelemetryEmitter.new (by decide)
  simp only [createDefinitionProvider, h, defPreciseLoop, defLspLoop_yields, hev]
  simp

/-- Closed witness for C4 at a concrete input: the LSP backend yields an
empty value, then a non-empty one, then a null value; all three are
forwarded verbatim. -/
theorem C4_lsp_definitions_forwarded_witness :
    preciseDefinitions none = []
    ∧ ((createDefinitionProvider none [Definition.loc locC]
          (some [Definition.locs [], Definition.loc locB, Definition.nullDef])).yields
        = [Definition.locs [], Definition.loc locB, Definition.nullDef]
      ∧ (createDefinitionProvider none [Definition.loc locC]
          (some [Definition.locs [], Definition.loc locB, Definition.nullDef])).events
        = (if [Definition.locs [], Definition.loc locB, Definition.nullDef].any nonEmpty
            then ["lspDefinitions"] else [])
      ∧ (createDefinitionProvider none [Definition.loc locC]
          (some [Definition.locs [], Definition.loc locB, Definition.nullDef])).lspInvoked
        = true
      ∧ (createDefinitionProvider none [Definition.loc locC]
          (some [Definition.locs [], Definition.loc locB, Definition.nullDef])).searchInvoked
        = false) :=
  ⟨by decide, C4_lsp_definitions_forwarded none [Definition.loc locC]
    [Definition.locs [], Definition.loc locB, Definition.nullDef] (by decide)⟩

theorem refsPreciseLoop_yields (bs : List RefBatch) (em : TelemetryEmitter)
    (acc : List Location) :
    (refsPreciseLoop bs em acc).yields = preciseRefYields bs := by
  induction bs generalizing em acc with
  | nil => rfl
  | cons b rest ih =>
    cases hb : nonEmptyRefs b <;>
      simp [refsPreciseLoop, hb, preciseRefYields, List.filterMap_cons, ih]

theorem refsPreciseLoop_lsifResults (bs : List RefBatch) (em : TelemetryEmitter)
    (acc : List Location) :
    (refsPreciseLoop bs em acc).lsifResults = lastNonEmpty acc bs := by
  induction bs generalizing em acc with
  | nil => rfl
  | cons b rest ih =>
    cases hb : nonEmptyRefs b <;> simp [refsPreciseLoop, hb, lastNonEmpty, ih]

theorem refsPreciseLoop_emitter (bs : List RefBatch) (em : TelemetryEmitter)
    (acc : List Location) :
    (refsPreciseLoop bs em acc).emitter.emitted ⊆ "lsifReferences" :: em.emitted := by
  induction bs generalizing em acc with
  | nil => exact List.subset_cons_self _ _
  | cons b rest ih =>
    cases hb : nonEmptyRefs b with
    | false =>
      simp only [refsPreciseLoop, hb, Bool.false_eq_true, if_false]
      exact ih em acc
    | true =>
      simp only [refsPreciseLoop, hb, if_true, TelemetryEmitter.emitOnce]
      by_cases hm : "lsifReferences" ∈ em.emitted
      · rw [if_pos hm]
        intro x hx
        exact ih em (asArrayRefs b) hx
      · rw [if_neg hm]
        intro x hx
        have hx2 := ih { emitted := "lsifReferences" :: em.emitted } (asArrayRefs b) hx
        simp only [List.mem_cons] at hx2 ⊢
        tauto

theorem refsPreciseLoop_events_done (bs : List RefBatch) (em : TelemetryEmitter)
    (acc : List Location) (h : "lsifReferences" ∈ em.emitted) :
    (refsPreciseLoop bs em acc).events = [] := by
  induction bs generalizing em acc with
  | nil => rfl
  | cons b rest ih =>
    cases hb : nonEmptyRefs b <;>
      simp [refsPreciseLoop, hb, TelemetryEmitter.emitOnce, h, ih _ _ h]

theorem refsPreciseLoop_events (bs : List RefBatch) (em : TelemetryEmitter)
    (acc : List Location) (h : "lsifReferences" ∉ em.emitted) :
    (refsPreciseLoop bs em acc).events
      = if bs.any nonEmptyRefs then ["lsifReferences"] else [] := by
  induction bs generalizing em acc with
  | nil => rfl
  | cons b rest ih =>
    cases hb : nonEmptyRefs b with
    | false => simp [refsPreciseLoop, hb, ih em acc h]
    | true =>
      simp [refsPreciseLoop, hb, TelemetryEmitter.emitOnce, h,
        refsPreciseLoop_events_done rest _ _ (List.mem_cons_self _ _)]

theorem refsLspLoop_yields (lsifResults : List Location) (bs : List RefBatch)
    (em : TelemetryEmitter) :
    (refsLspLoop lsifResults bs em).yields = lspRefYields lsifResults bs := by
  induction bs generalizing em with
  | nil => rfl
  | cons b rest ih =>
    cases hb : asArrayRefs b with
    | nil => simp [refsLspLoop, hb, lspRefYields, List.filterMap_cons, ih]
    | cons x xs => simp [refsLspLoop, hb, lspRefYields, List.filterMap_cons, ih]

theorem refsLspLoop_events_done (lsifResults : List Location) (bs : List RefBatch)
    (em : TelemetryEmitter) (h : "lspReferences" ∈ em.emitted) :
    (refsLspLoop lsifResults bs em).events = [] := by
  induction bs generalizing em with
  | nil => rfl
  | cons b rest ih =>
    cases hb : asArrayRefs b <;>
      simp [refsLspLoop, hb, TelemetryEmitter.emitOnce, h, ih _ h]

theorem refsLspLoop_events (lsifResults : List Location) (bs : List RefBatch)
    (em : TelemetryEmitter) (h : "lspReferences" ∉ em.emitted) :
    (refsLspLoop lsifResults bs em).events
      = if bs.any (fun b => !(asArrayRefs b).isEmpty) then ["lspReferences"] else [] := by
  induction bs generalizing em with
  | nil => rfl
  | cons b rest ih =>
    cases hb : asArrayRefs b with
    | nil => simp [refsLspLoop, hb, ih em h]
    | cons x xs =>
      simp [refsLspLoop, hb, TelemetryEmitter.emitOnce, h,
        refsLspLoop_events_done lsifResults rest _ (List.mem_cons_self _ _)]

theorem refsSearchLoop_yields (lsifResults : List Location) (lsifFiles : List String)
    (bs : List RefBatch) (em : TelemetryEmitter) :
    (refsSearchLoop lsifResults lsifFiles bs em).yields
      = searchRefYields lsifResults lsifFiles bs := by
  induction bs generalizing em with
  | nil => rfl
  | cons b rest ih =>
    simp only [refsSearchLoop, searchRefYields, filteredSearchBatch, List.filterMap_cons]
    cases hb : (asArrayRefs b).filter (fun l => !(lsifFiles.contains (file l))) with
    | nil => simpa [searchRefYields, filteredSearchBatch] using ih em
    | cons x xs => simpa [searchRefYields, filteredSearchBatch] using ih _

theorem refsSearchLoop_events_done (lsifResults : List Location)
    (lsifFiles : List String) (bs : List RefBatch) (em : TelemetryEmitter)
    (h : "searchReferences" ∈ em.emitted) :
    (refsSearchLoop lsifResults lsifFiles bs em).events = [] := by
  induction bs generalizing em with
  | nil => rfl
  | cons b rest ih =>
    simp only [refsSearchLoop]
    cases hb : (asArrayRefs b).filter (fun l => !(lsifFiles.contains (file l))) with
    | nil => simpa using ih em h
    | cons x xs => simp [TelemetryEmitter.emitOnce, h, ih _ h]

theorem refsSearchLoop_events (lsifResults : List Location) (lsifFiles : List String)
    (bs : List RefBatch) (em : TelemetryEmitter) (h : "searchReferences" ∉ em.emitted) :
    (refsSearchLoop lsifResults lsifFiles bs em).events
      = if bs.any (fun b => !(filteredSearchBatch lsifFiles b).isEmpty)
        then ["searchReferences"] else [] := by
  induction bs generalizing em with
  | nil => rfl
  | cons b rest ih =>
    have hfb : filteredSearchBatch lsifFiles b
        = (asArrayRefs b).filter (fun l => !(lsifFiles.contains (file l))) := rfl
    simp only [refsSearchLoop, List.any_cons, hfb]
    cases hb : (asArrayRefs b).filter (fun l => !(lsifFiles.contains (file l))) with
    | nil => simpa using ih em h
    | cons x xs =>
      simp [TelemetryEmitter.emitOnce, h,
        refsSearchLoop_events_done lsifResults lsifFiles rest _ (List.mem_cons_self _ _)]

/-- C5: in the references composer with an LSP (protocol) backend
configured, each non-empty LSP batch is yielded as the precise results so
far concatenated verbatim with the LSP batch (no deduplication by location
identity), empty LSP batches are skipped, the "lspReferences"
(protocolReferences) event fires once exactly when some LSP batch is
non-empty, and the search (heuristic) backend is never consulted. -/
theorem C5_lsp_references_concat_no_dedup (lsifBatches searchBatches : List RefBatch)
    (bs : List RefBatch) :
    (createReferencesProvider lsifBatches searchBatches (some bs)).yields
        = preciseRefYields lsifBatches
          ++ lspRefYields (lastNonEmpty [] lsifBatches) bs
    ∧ (createReferencesProvider lsifBatches searchBatches (some bs)).events
        = (if lsifBatches.any nonEmptyRefs then ["lsifReferences"] else [])
          ++ (if bs.any (fun b => !(asArrayRefs b).isEmpty)
              then ["lspReferences"] else [])
    ∧ (createReferencesProvider lsifBatches searchBatches (some bs)).searchInvoked = false
    ∧ (createReferencesProvider lsifBatches searchBatches (some bs)).lspInvoked = true := by
  have hnm : "lspReferences"
      ∉ (refsPreciseLoop lsifBatches TelemetryEmitter.new []).emitter.emitted := by
    intro hmem
    have h2 := refsPreciseLoop_emitter lsifBatches TelemetryEmitter.new [] hmem
    simp [TelemetryEmitter.new] at h2
  simp only [createReferencesProvider]
  refine ⟨?_, ?_, by trivial, by trivial⟩
  · simp [refsPreciseLoop_yields, refsLspLoop_yields, refsPreciseLoop_lsifResults]
  · rw [refsPreciseLoop_events _ _ _ (by decide), refsLspLoop_events _ _ _ hnm]

/-- C2: in the references composer with no LSP (protocol) backend, each
heuristic batch is filtered against the covered precise files, a batch
emptied by the filtering is skipped entirely, and every surviving batch is
yielded as the precise results concatenated with the badged filtered batch,
whose locations never have a same-file fingerprint among the precise-result
files. -/
theorem C2_search_references_filtered (lsifBatches searchBatches : List RefBatch) :
    (createReferencesProvider lsifBatches searchBatches none).yields
        = preciseRefYields lsifBatches
          ++ searchRefYields (lastNonEmpty [] lsifBatches)
              ((lastNonEmpty [] lsifBatches).map file) searchBatches
    ∧ (∀ y ∈ searchRefYields (lastNonEmpty [] lsifBatches)
          ((lastNonEmpty [] lsifBatches).map file) searchBatches,
        ∃ f : List Location, f ≠ []
          ∧ y = lastNonEmpty [] lsifBatches ++ f
          ∧ ∀ l ∈ f, file l ∉ (lastNonEmpty [] lsifBatches).map file)
    ∧ (createReferencesProvider lsifBatches searchBatches none).events
        = (if lsifBatches.any nonEmptyRefs then ["lsifReferences"] else [])
          ++ (if searchBatches.any (fun b =>
                !(filteredSearchBatch ((lastNonEmpty [] lsifBatches).map file) b).isEmpty)
              then ["searchReferences"] else [])
    ∧ (createReferencesProvider lsifBatches searchBatches none).lspInvoked = false := by
  have hnm : "searchReferences"
      ∉ (refsPreciseLoop lsifBatches TelemetryEmitter.new []).emitter.emitted := by
    intro hmem
    have h2 := refsPreciseLoop_emitter lsifBatches TelemetryEmitter.new [] hmem
    simp [TelemetryEmitter.new] at h2
  refine ⟨?_, ?_, ?_, ?_⟩
  · simp only [createReferencesProvider]
    simp [refsPreciseLoop_yields, refsSearchLoop_yields, refsPreciseLoop_lsifResults]
  · intro y hy
    simp only [searchRefYields, List.mem_filterMap] at hy
    obtain ⟨b, _, hb⟩ := hy
    by_cases he : (filteredSearchBatch ((lastNonEmpty [] lsifBatches).map file) b).isEmpty
    · rw [if_pos he] at hb
      exact absurd hb (by simp)
    · rw [if_neg he] at hb
      refine ⟨(filteredSearchBatch ((lastNonEmpty [] lsifBatches).map file) b).map setBadge,
        ?_, ?_, ?_⟩
      · intro hmap
        rw [List.map_eq_nil_iff] at hmap
        simp [hmap] at he
      · exact (Option.some_injective _ hb).symm
      · intro l hl
        obtain ⟨l0, hl0, rfl⟩ := List.mem_map.mp hl
        have hfil : l0 ∈ asArrayRefs b
            ∧ ∀ x ∈ lastNonEmpty [] lsifBatches, ¬ file x = file l0 := by
          simpa [filteredSearchBatch, List.mem_filter] using hl0
        have hnm2 : file l0 ∉ (lastNonEmpty [] lsifBatches).map file := by
          simpa using hfil.2
        simpa [file, setBadge] using hnm2
  · simp only [createReferencesProvider]
    rw [refsPreciseLoop_events _ _ _ (by decide), refsSearchLoop_events _ _ _ _ hnm,
      refsPreciseLoop_lsifResults]
  · simp only [createReferencesProvider]

/-- Closed witness for C2 at a concrete input: a heuristic batch containing
one location in a precise-covered file and one outside; the surviving
filtered portion has no covered fingerprint. -/
theorem C2_search_references_filtered_witness :
    ([locB, setBadge locC]
        ∈ searchRefYields (lastNonEmpty [] [some [locB]])
            ((lastNonEmpty [] [some [locB]]).map file) [some [locB, locC]])
    ∧ (∃ f : List Location, f ≠ []
        ∧ [locB, setBadge locC] = lastNonEmpty [] [some [locB]] ++ f
        ∧ ∀ l ∈ f, file l ∉ (lastNonEmpty [] [some [locB]]).map file) :=
  ⟨by decide,
    (C2_search_references_filtered [some [locB]] [some [locB, locC]]).2.1
      [locB, setBadge locC] (by decide)⟩

/-- C10: the precise prefix re-emitted on each LSP or search batch and the
covered-file set used to filter search batches are computed from the most
recent non-empty precise batch only, not from the union of all precise
batches; concretely, with non-cumulative precise batches [[locA]] then
[[locB]], the file of locA is not covered, and a heuristic location in
locA's file survives filtering while locA itself is not re-emitted. -/
theorem C10_covered_from_last_precise_batch :
    (∀ (lsifBatches searchBatches : List RefBatch) (lspBatches : Option (List RefBatch)),
        (createReferencesProvider lsifBatches searchBatches lspBatches).lsifResults
          = lastNonEmpty [] lsifBatches)
    ∧ (∀ (lsifBatches searchBatches : List RefBatch),
        (createReferencesProvider lsifBatches searchBatches none).lsifFiles
          = (lastNonEmpty [] lsifBatches).map file)
    ∧ (createReferencesProvider [some [locA], some [locB]] [some [locA2, locC]]
        none).lsifResults = [locB]
    ∧ file locA
        ∉ (createReferencesProvider [some [locA], some [locB]] [some [locA2, locC]]
            none).lsifFiles
    ∧ (createReferencesProvider [some [locA], some [locB]] [some [locA2, locC]]
        none).yields = [[locA], [locB], [locB, setBadge locA2, setBadge locC]] := by
  refine ⟨?_, ?_, by decide, by decide, by decide⟩
  · intro lsifBatches searchBatches lspBatches
    cases lspBatches <;>
      simp [createReferencesProvider, refsPreciseLoop_lsifResults]
  · intro lsifBatches searchBatches
    simp [createReferencesProvider, refsPreciseLoop_lsifResults]

theorem hoverLspLoop_alerts_none (rs : List (Option String)) (em : TelemetryEmitter) :
    ∀ y ∈ (hoverLspLoop rs none em).yields, y.alerts = none := by
  induction rs generalizing em with
  | nil => intro y hy; simp [hoverLspLoop] at hy
  | cons r rest ih =>
    cases r with
    | none => exact fun y hy => ih _ y (by simpa [hoverLspLoop] using hy)
    | some h =>
      intro y hy
      simp only [hoverLspLoop, List.mem_cons] at hy
      rcases hy with rfl | hy
      · rfl
      · exact ih _ y hy

theorem hoverLspLoop_tail_alerts (rs : List (Option String))
    (alerts : Option (List Alert)) (em : TelemetryEmitter) :
    ∀ y ∈ ((hoverLspLoop rs alerts em).yields).drop 1, y.alerts = none := by
  induction rs generalizing alerts em with
  | nil => intro y hy; simp [hoverLspLoop] at hy
  | cons r rest ih =>
    cases r with
    | none => exact fun y hy => ih alerts _ y (by simpa [hoverLspLoop] using hy)
    | some h =>
      intro y hy
      simp only [hoverLspLoop, List.drop_succ_cons, List.drop_zero] at hy
      exact hoverLspLoop_alerts_none rest _ y hy

theorem hoverLspLoop_head_alerts (rs : List (Option String))
    (alerts : Option (List Alert)) (em : TelemetryEmitter) (y0 : HoverResult)
    (ys : List HoverResult) (h : (hoverLspLoop rs alerts em).yields = y0 :: ys) :
    y0.alerts = alerts := by
  induction rs generalizing alerts em with
  | nil => simp [hoverLspLoop] at h
  | cons r rest ih =>
    cases r with
    | none => exact ih alerts _ (by simpa [hoverLspLoop] using h)
    | some hh =>
      simp only [hoverLspLoop, List.cons.injEq] at h
      rw [← h.1]

theorem hoverSearchLoop_alerts_none (rs : List (Option String)) (em : TelemetryEmitter) :
    ∀ y ∈ (hoverSearchLoop rs none em).yields, y.alerts = none := by
  induction rs generalizing em with
  | nil => intro y hy; simp [hoverSearchLoop] at hy
  | cons r rest ih =>
    cases r with
    | none => exact fun y hy => ih _ y (by simpa [hoverSearchLoop] using hy)
    | some h =>
      intro y hy
      simp only [hoverSearchLoop, List.mem_cons] at hy
      rcases hy with rfl | hy
      · rfl
      · exact ih _ y hy

theorem hoverSearchLoop_tail_alerts (rs : List (Option String))
    (alerts : Option (List Alert)) (em : TelemetryEmitter) :
    ∀ y ∈ ((hoverSearchLoop rs alerts em).yields).drop 1, y.alerts = none := by
  induction rs generalizing alerts em with
  | nil => intro y hy; simp [hoverSearchLoop] at hy
  | cons r rest ih =>
    cases r with
    | none => exact fun y hy => ih alerts _ y (by simpa [hoverSearchLoop] using hy)
    | some h =>
      intro y hy
      simp only [hoverSearchLoop, List.drop_succ_cons, List.drop_zero] at hy
      exact hoverSearchLoop_alerts_none rest _ y hy

theorem hoverSearchLoop_head_alerts (rs : List (Option String))
    (alerts : Option (List Alert)) (em : TelemetryEmitter) (y0 : HoverResult)
    (ys : List HoverResult) (h : (hoverSearchLoop rs alerts em).yields = y0 :: ys) :
    y0.alerts = alerts := by
  induction rs generalizing alerts em with
  | nil => simp [hoverSearchLoop] at h
  | cons r rest ih =>
    cases r with
    | none => exact ih alerts _ (by simpa [hoverSearchLoop] using h)
    | some hh =>
      simp only [hoverSearchLoop, List.cons.injEq] at h
      rw [← h.1]

theorem searchAlertsFor_ne_none (sup : LSIFSupport) : searchAlertsFor sup ≠ none := by
  cases sup <;> simp [searchAlertsFor]

theorem hoverLspLoop_events_done (rs : List (Option String))
    (alerts : Option (List Alert)) (em : TelemetryEmitter)
    (h : "lspHover" ∈ em.emitted) : (hoverLspLoop rs alerts em).events = [] := by
  induction rs generalizing alerts em with
  | nil => rfl
  | cons r rest ih =>
    cases r <;> simp [hoverLspLoop, TelemetryEmitter.emitOnce, h, ih _ _ h]

theorem hoverLspLoop_events (rs : List (Option String))
    (alerts : Option (List Alert)) (em : TelemetryEmitter)
    (h : "lspHover" ∉ em.emitted) :
    (hoverLspLoop rs alerts em).events
      = if rs.any (fun r => r.isSome) then ["lspHover"] else [] := by
  induction rs generalizing alerts em with
  | nil => rfl
  | cons r rest ih =>
    cases r with
    | none => simpa [hoverLspLoop] using ih alerts em h
    | some hh =>
      simp [hoverLspLoop, TelemetryEmitter.emitOnce, h,
        hoverLspLoop_events_done rest none _ (List.mem_cons_self _ _)]

theorem hoverSearchLoop_events_done (rs : List (Option String))
    (alerts : Option (List Alert)) (em : TelemetryEmitter)
    (h : "searchHover" ∈ em.emitted) : (hoverSearchLoop rs alerts em).events = [] := by
  induction rs generalizing alerts em with
  | nil => rfl
  | cons r rest ih =>
    cases r <;> simp [hoverSearchLoop, TelemetryEmitter.emitOnce, h, ih _ _ h]

theorem hoverSearchLoop_events (rs : List (Option String))
    (alerts : Option (List Alert)) (em : TelemetryEmitter)
    (h : "searchHover" ∉ em.emitted) :
    (hoverSearchLoop rs alerts em).events
      = if rs.any (fun r => r.isSome) then ["searchHover"] else [] := by
  induction rs generalizing alerts em with
  | nil => rfl
  | cons r rest ih =>
    cases r with
    | none => simpa [hoverSearchLoop] using ih alerts em h
    | some hh =>
      simp [hoverSearchLoop, TelemetryEmitter.emitOnce, h,
        hoverSearchLoop_events_done rest none _ (List.mem_cons_self _ _)]

/-- C6: when the precise backend returns a hover text with an empty
definition and the heuristic definition probe finds some non-empty result,
the hover composer yields exactly one value — the precise hover with the
partial-precise-only alert — fires "lsifHover" (preciseHover) once, and
stops without entering the LSP or search hover backends. -/
theorem C6_precise_hover_partial_alert (sup : LSIFSupport) (w : DefinitionAndHover)
    (ht : String) (searchDefResults : List Definition) (shr : List (Option String))
    (lspOpt : Option (List (Option String))) (hh : w.hover = some ht)
    (hd : nonEmpty w.definition = false) (hp : searchDefProbe searchDefResults = true) :
    (createHoverProvider sup (some w) searchDefResults shr lspOpt).yields
        = [{ contents := ht, alerts := some [Alert.lsifPartialHoverOnly] }]
    ∧ (createHoverProvider sup (some w) searchDefResults shr lspOpt).events
        = ["lsifHover"]
    ∧ (createHoverProvider sup (some w) searchDefResults shr lspOpt).searchDefProbed
        = true
    ∧ (createHoverProvider sup (some w) searchDefResults shr lspOpt).lspInvoked = false
    ∧ (createHoverProvider sup (some w) searchDefResults shr lspOpt).searchHoverInvoked
        = false := by
  simp [createHoverProvider, hh, hd, hp, TelemetryEmitter.emitOnce, TelemetryEmitter.new]

/-- Closed witness for C6 at a concrete input. -/
theorem C6_precise_hover_partial_alert_witness :
    (DefinitionAndHover.hover ⟨Definition.locs [], some "H"⟩ = some "H"
      ∧ nonEmpty (DefinitionAndHover.definition ⟨Definition.locs [], some "H"⟩) = false
      ∧ searchDefProbe [Definition.loc locA] = true)
    ∧ ((createHoverProvider LSIFSupport.robust (some ⟨Definition.locs [], some "H"⟩)
          [Definition.loc locA] [some "S"] (some [some "L"])).yields
        = [{ contents := "H", alerts := some [Alert.lsifPartialHoverOnly] }]
      ∧ (createHoverProvider LSIFSupport.robust (some ⟨Definition.locs [], some "H"⟩)
          [Definition.loc locA] [some "S"] (some [some "L"])).events = ["lsifHover"]
      ∧ (createHoverProvider LSIFSupport.robust (some ⟨Definition.locs [], some "H"⟩)
          [Definition.loc locA] [some "S"] (some [some "L"])).searchDefProbed = true
      ∧ (createHoverProvider LSIFSupport.robust (some ⟨Definition.locs [], some "H"⟩)
          [Definition.loc locA] [some "S"] (some [some "L"])).lspInvoked = false
      ∧ (createHoverProvider LSIFSupport.robust (some ⟨Definition.locs [], some "H"⟩)
          [Definition.loc locA] [some "S"] (some [some "L"])).searchHoverInvoked
        = false) :=
  ⟨⟨rfl, rfl, rfl⟩,
    C6_precise_hover_partial_alert LSIFSupport.robust ⟨Definition.locs [], some "H"⟩
      "H" [Definition.loc locA] [some "S"] (some [some "L"]) rfl rfl rfl⟩

/-- C7: in every hover composer invocation, an alert set is attached only to
the first value yielded — the head of the yield sequence carries an alert
set, and every subsequent yielded value carries no alerts. -/
theorem C7_alerts_only_on_first_yield (sup : LSIFSupport)
    (lsifWrapper : Option DefinitionAndHover) (searchDefResults : List Definition)
    (shr : List (Option String)) (lspOpt : Option (List (Option String)))
    (y0 : HoverResult) (ys : List HoverResult)
    (h : (createHoverProvider sup lsifWrapper searchDefResults shr lspOpt).yields
        = y0 :: ys) :
    y0.alerts ≠ none ∧ ∀ y ∈ ys, y.alerts = none := by
  have halerts : ∀ b : Bool,
      (if b then some [Alert.lsifPartialDefinitionOnly] else searchAlertsFor sup) ≠ none := by
    intro b
    cases b
    · simpa using searchAlertsFor_ne_none sup
    · simp
  have main : ∀ (hasDef : Bool) (probed : Bool),
      (hoverFallback (searchAlertsFor sup) hasDef shr lspOpt
          TelemetryEmitter.new probed).yields = y0 :: ys →
      y0.alerts ≠ none ∧ ∀ y ∈ ys, y.alerts = none := by
    intro hasDef probed hfb
    cases lspOpt with
    | some rs =>
      simp only [hoverFallback] at hfb
      refine ⟨?_, ?_⟩
      · rw [hoverLspLoop_head_alerts rs _ _ y0 ys hfb]
        simp
      · intro y hy
        have ht := hoverLspLoop_tail_alerts rs (some [Alert.lsp]) TelemetryEmitter.new
        rw [hfb] at ht
        exact ht y (by simpa using hy)
    | none =>
      simp only [hoverFallback] at hfb
      refine ⟨?_, ?_⟩
      · rw [hoverSearchLoop_head_alerts shr _ _ y0 ys hfb]
        exact halerts hasDef
      · intro y hy
        have ht := hoverSearchLoop_tail_alerts shr
          (if hasDef = true then some [Alert.lsifPartialDefinitionOnly]
            else searchAlertsFor sup) TelemetryEmitter.new
        rw [hfb] at ht
        exact ht y (by simpa using hy)
  cases lsifWrapper with
  | none =>
    simp only [createHoverProvider] at h
    exact main false false h
  | some w =>
    cases hw : w.hover with
    | none =>
      simp only [createHoverProvider, hw] at h
      exact main (nonEmpty w.definition) false h
    | some hstr =>
      simp only [createHoverProvider, hw, List.cons.injEq] at h
      refine ⟨?_, ?_⟩
      · rw [← h.1]
        simp
      · rw [← h.2]
        intro y hy
        simp at hy

/-- Closed witness for C7 at a concrete input with two yielded values. -/
theorem C7_alerts_only_on_first_yield_witness :
    ((createHoverProvider LSIFSupport.none none [] [some "a", some "b"] none).yields
        = { contents := "a", alerts := some [Alert.searchLSIFSupportNone] }
          :: [{ contents := "b", alerts := none }])
    ∧ ({ contents := "a",
          alerts := some [Alert.searchLSIFSupportNone] : HoverResult }.alerts ≠ none
      ∧ ∀ y ∈ [{ contents := "b", alerts := none : HoverResult }], y.alerts = none) :=
  ⟨by decide,
    C7_alerts_only_on_first_yield LSIFSupport.none none [] [some "a", some "b"] none
      { contents := "a", alerts := some [Alert.searchLSIFSupportNone] }
      [{ contents := "b", alerts := none }] (by decide)⟩

theorem dhLoop_yields (bs : List HighlightBatch) (em : TelemetryEmitter) :
    (dhLoop bs em).yields = bs.filterMap id := by
  induction bs generalizing em with
  | nil => rfl
  | cons b rest ih => cases b <;> simp [dhLoop, ih]

theorem dhLoop_events_done (bs : List HighlightBatch) (em : TelemetryEmitter)
    (h : "lsifDocumentHighlight" ∈ em.emitted) : (dhLoop bs em).events = [] := by
  induction bs generalizing em with
  | nil => rfl
  | cons b rest ih =>
    cases b <;> simp [dhLoop, TelemetryEmitter.emitOnce, h, ih _ h]

theorem dhLoop_events (bs : List HighlightBatch) (em : TelemetryEmitter)
    (h : "lsifDocumentHighlight" ∉ em.emitted) :
    (dhLoop bs em).events
      = if bs.any (fun b => b.isSome) then ["lsifDocumentHighlight"] else [] := by
  induction bs generalizing em with
  | nil => rfl
  | cons b rest ih =>
    cases b with
    | none => simp [dhLoop, ih em h]
    | some hs =>
      simp [dhLoop, TelemetryEmitter.emitOnce, h,
        dhLoop_events_done rest _ (List.mem_cons_self _ _)]

/-- C9: the document-highlights composer consults only the precise backend:
each non-null batch is forwarded verbatim, "lsifDocumentHighlight"
(preciseDocumentHighlights) fires once exactly when some batch is non-null,
the LSP and search backends are never invoked, and the run does not depend
on the supplied LSP and search providers at all. -/
theorem C9_document_highlights_precise_only (lsifBatches : List HighlightBatch)
    (searchBatches s2 : List HighlightBatch)
    (lspBatches l2 : Option (List HighlightBatch)) :
    (createDocumentHighlightProvider lsifBatches searchBatches lspBatches).yields
        = lsifBatches.filterMap id
    ∧ (createDocumentHighlightProvider lsifBatches searchBatches lspBatches).events
        = (if lsifBatches.any (fun b => b.isSome)
            then ["lsifDocumentHighlight"] else [])
    ∧ (createDocumentHighlightProvider lsifBatches searchBatches lspBatches).lspInvoked
        = false
    ∧ (createDocumentHighlightProvider lsifBatches searchBatches
        lspBatches).searchInvoked = false
    ∧ createDocumentHighlightProvider lsifBatches searchBatches lspBatches
        = createDocumentHighlightProvider lsifBatches s2 l2 :=
  ⟨by simp [createDocumentHighlightProvider, dhLoop_yields],
    by simp [createDocumentHighlightProvider,
      dhLoop_events lsifBatches TelemetryEmitter.new (by decide)],
    rfl, rfl, rfl⟩

theorem emitN_done (name : String) (n : Nat) (em : TelemetryEmitter)
    (h : name ∈ em.emitted) : (emitN name n em).2 = [] := by
  induction n generalizing em with
  | zero => rfl
  | succ n ih => simp [emitN, TelemetryEmitter.emitOnce, h, ih _ h]

/-- C3: the emitOnce guarantee — calling `emitOnce` with one name N ≥ 1
times on a single fresh-for-this-name emitter instance produces exactly one
emission side effect — together with its consequence in the composers: one
emitter instance is created per invocation and every event list a composer
run produces has no duplicate event name. -/
theorem C3_emit_once_per_invocation :
    (∀ (name : String) (n : Nat) (em : TelemetryEmitter), 1 ≤ n →
        name ∉ em.emitted → (emitN name n em).2 = [name])
    ∧ (∀ (lsifWrapper : Option DefinitionAndHover) (searchResults : List Definition)
        (lspResults : Option (List Definition)),
        (createDefinitionProvider lsifWrapper searchResults lspResults).events.Nodup)
    ∧ (∀ (lsifBatches searchBatches : List RefBatch)
        (lspBatches : Option (List RefBatch)),
        (createReferencesProvider lsifBatches searchBatches lspBatches).events.Nodup)
    ∧ (∀ (sup : LSIFSupport) (lsifWrapper : Option DefinitionAndHover)
        (sdr : List Definition) (shr : List (Option String))
        (lspOpt : Option (List (Option String))),
        (createHoverProvider sup lsifWrapper sdr shr lspOpt).events.Nodup)
    ∧ (∀ (lsifBatches searchBatches : List HighlightBatch)
        (lspBatches : Option (List HighlightBatch)),
        (createDocumentHighlightProvider lsifBatches searchBatches
          lspBatches).events.Nodup) := by
  refine ⟨?_, ?_, ?_, ?_, ?_⟩
  · intro name n em hn hmem
    cases n with
    | zero => exact absurd hn (by simp)
    | succ n =>
      simp [emitN, TelemetryEmitter.emitOnce, hmem,
        emitN_done name n _ (List.mem_cons_self _ _)]
  · intro lsifWrapper searchResults lspResults
    cases hp : preciseDefinitions lsifWrapper with
    | cons l rest =>
      have hev := defPreciseLoop_events (l :: rest) TelemetryEmitter.new (by decide)
      simp [createDefinitionProvider, hp, defPreciseLoop_flag, hev]
    | nil =>
      cases lspResults with
      | some rs =>
        have hev := defLspLoop_events rs TelemetryEmitter.new (by decide)
        simp only [createDefinitionProvider, hp, defPreciseLoop, hev]
        split_ifs <;> simp
      | none =>
        have hev := defSearchLoop_events searchResults TelemetryEmitter.new (by decide)
        simp only [createDefinitionProvider, hp, defPreciseLoop, hev]
        split_ifs <;> simp
  · intro lsifBatches searchBatches lspBatches
    have hp := refsPreciseLoop_events lsifBatches TelemetryEmitter.new [] (by decide)
    cases lspBatches with
    | some bs =>
      have hnm : "lspReferences"
          ∉ (refsPreciseLoop lsifBatches TelemetryEmitter.new []).emitter.emitted := by
        intro hmem
        have h2 := refsPreciseLoop_emitter lsifBatches TelemetryEmitter.new [] hmem
        simp [TelemetryEmitter.new] at h2
      have hq := refsLspLoop_events
        (refsPreciseLoop lsifBatches TelemetryEmitter.new []).lsifResults bs _ hnm
      simp only [createReferencesProvider, hp, hq]
      split_ifs <;> simp
    | none =>
      have hnm : "searchReferences"
          ∉ (refsPreciseLoop lsifBatches TelemetryEmitter.new []).emitter.emitted := by
        intro hmem
        have h2 := refsPreciseLoop_emitter lsifBatches TelemetryEmitter.new [] hmem
        simp [TelemetryEmitter.new] at h2
      have hq := refsSearchLoop_events
        (refsPreciseLoop lsifBatches TelemetryEmitter.new []).lsifResults
        ((refsPreciseLoop lsifBatches TelemetryEmitter.new []).lsifResults.map file)
        searchBatches _ hnm
      simp only [createReferencesProvider, hp, hq]
      split_ifs <;> simp
  · intro sup lsifWrapper sdr shr lspOpt
    have hfb : ∀ (sa : Option (List Alert)) (hasDef probed : Bool),
        (hoverFallback sa hasDef shr lspOpt TelemetryEmitter.new probed).events.Nodup := by
      intro sa hasDef probed
      cases lspOpt with
      | some rs =>
        have hev := hoverLspLoop_events rs (some [Alert.lsp]) TelemetryEmitter.new
          (by decide)
        simp only [hoverFallback, hev]
        split_ifs <;> simp
      | none =>
        have hev := hoverSearchLoop_events shr
          (if hasDef then some [Alert.lsifPartialDefinitionOnly] else sa)
          TelemetryEmitter.new (by decide)
        simp only [hoverFallback, hev]
        split_ifs <;> simp
    cases lsifWrapper with
    | none => exact hfb _ _ _
    | some w =>
      cases hw : w.hover with
      | none =>
        simp only [createHoverProvider, hw]
        exact hfb _ _ _
      | some hstr =>
        simp [createHoverProvider, hw, TelemetryEmitter.emitOnce, TelemetryEmitter.new]
  · intro lsifBatches searchBatches lspBatches
    have hev := dhLoop_events lsifBatches TelemetryEmitter.new (by decide)
    simp only [createDocumentHighlightProvider, hev]
    split_ifs <;> simp

/-- Closed witness for C3: three calls of emitOnce with one name on a fresh
emitter produce exactly one emission. -/
theorem C3_emit_once_per_invocation_witness :
    (1 ≤ 3 ∧ "lsifHover" ∉ TelemetryEmitter.new.emitted)
    ∧ (emitN "lsifHover" 3 TelemetryEmitter.new).2 = ["lsifHover"] :=
  ⟨⟨by decide, by decide⟩,
    C3_emit_once_per_invocation.1 "lsifHover" 3 TelemetryEmitter.new
      (by decide) (by decide)⟩

theorem interTrace_eq (ss : List Config) (h : Nat) :
    interTrace h ss = RegEvent.dispose h :: canonicalTrace (h + 1) ss := by
  induction ss generalizing h with
  | nil => rfl
  | cons c rest ih => simp [interTrace, canonicalTrace, ih]

theorem canonicalTrace_eq_interTrace (ss : List Config) (h : Nat) (c : Config) :
    canonicalTrace h (c :: ss) = RegEvent.register c :: interTrace h ss := by
  rw [interTrace_eq]
  rfl

theorem reregisterLoop_trace (tracked : List String) (updates : List Config)
    (st : RegState) :
    (reregisterLoop tracked st updates).1
        ++ [RegEvent.dispose (reregisterLoop tracked st updates).2.handle]
      = interTrace st.handle (triggeringSnapshots tracked st.snapshot updates) := by
  induction updates generalizing st with
  | nil => rfl
  | cons c rest ih =>
    cases hc : changedFields tracked st.snapshot c with
    | true =>
      have hih := ih ⟨c, st.handle + 1⟩
      simp only [reregisterLoop, reregisterStep, hc, if_true, triggeringSnapshots,
        interTrace, List.cons_append, List.append_assoc]
      simpa using hih
    | false =>
      have hih := ih st
      simp only [reregisterLoop, reregisterStep, hc, Bool.false_eq_true, if_false,
        triggeringSnapshots, List.nil_append]
      exact hih

theorem controllerLifecycle_eq (tracked : List String) (init : Config)
    (updates : List Config) :
    controllerLifecycle tracked init updates
      = canonicalTrace 0 (init :: triggeringSnapshots tracked init updates) := by
  rw [canonicalTrace_eq_interTrace]
  simp only [controllerLifecycle, reregisterOnChange, List.cons_append, List.cons.injEq,
    true_and]
  exact reregisterLoop_trace tracked updates ⟨init, 0⟩

theorem registerCount_canonicalTrace (ss : List Config) (h : Nat) :
    registerCount (canonicalTrace h ss) = ss.length := by
  induction ss generalizing h with
  | nil => rfl
  | cons c rest ih => simp [canonicalTrace, registerCount, ih]

theorem disposeCount_canonicalTrace (ss : List Config) (h k : Nat) :
    disposeCount k (canonicalTrace h ss)
      = if h ≤ k ∧ k < h + ss.length then 1 else 0 := by
  induction ss generalizing h with
  | nil =>
    simp only [canonicalTrace, disposeCount, List.length_nil]
    split_ifs <;> omega
  | cons c rest ih =>
    simp only [canonicalTrace, disposeCount, ih, List.length_cons]
    split_ifs <;> omega

theorem canonicalTrace_prefix_active (ss : List Config) (h n : Nat) :
    registerCount ((canonicalTrace h ss).take n)
      ≤ disposeTotal ((canonicalTrace h ss).take n) + 1 := by
  induction ss generalizing h n with
  | nil => simp [canonicalTrace, registerCount, disposeTotal]
  | cons c rest ih =>
    cases n with
    | zero => simp [registerCount, disposeTotal]
    | succ n =>
      cases n with
      | zero =>
        simp [canonicalTrace, List.take_succ_cons, registerCount, disposeTotal]
      | succ m =>
        simp only [canonicalTrace, List.take_succ_cons, registerCount, disposeTotal]
        have hi := ih (h + 1) m
        omega

/-- C8: for `reregisterOnChange` with tracked fields F — a snapshot equal to
the stored one on every field of F triggers nothing; a snapshot differing in
some field of F triggers exactly one registerFn call receiving the full new
snapshot and exactly one disposal of the prior handle, in that order; the
full lifecycle trace is register/dispose strictly alternating (so at most
one handle is active at any time), and every handle ever registered —
including the last one, disposed by disposing the controller — is disposed
exactly once. -/
theorem C8_reregister_on_change :
    (∀ (tracked : List String) (st : RegState) (c : Config),
        (∀ f ∈ tracked, getField st.snapshot f = getField c f) →
        reregisterStep tracked st c = (st, []))
    ∧ (∀ (tracked : List String) (st : RegState) (c : Config),
        (∃ f ∈ tracked, getField st.snapshot f ≠ getField c f) →
        reregisterStep tracked st c
          = ({ snapshot := c, handle := st.handle + 1 },
            [RegEvent.dispose st.handle, RegEvent.register c]))
    ∧ (∀ (tracked : List String) (init : Config) (updates : List Config),
        controllerLifecycle tracked init updates
          = canonicalTrace 0 (init :: triggeringSnapshots tracked init updates))
    ∧ (∀ (tracked : List String) (init : Config) (updates : List Config) (k : Nat),
        disposeCount k (controllerLifecycle tracked init updates)
          = if k < registerCount (controllerLifecycle tracked init updates)
            then 1 else 0)
    ∧ (∀ (tracked : List String) (init : Config) (updates : List Config) (n : Nat),
        registerCount ((controllerLifecycle tracked init updates).take n)
          ≤ disposeTotal ((controllerLifecycle tracked init updates).take n) + 1) := by
  refine ⟨?_, ?_, ?_, ?_, ?_⟩
  · intro tracked st c hall
    have hch : changedFields tracked st.snapshot c = false := by
      simp only [changedFields, List.any_eq_false, decide_eq_true_eq, ne_eq, not_not]
      exact hall
    simp [reregisterStep, hch]
  · intro tracked st c hsome
    have hch : changedFields tracked st.snapshot c = true := by
      obtain ⟨f, hf, hne⟩ := hsome
      simp only [changedFields, List.any_eq_true, decide_eq_true_eq]
      exact ⟨f, hf, hne⟩
    simp [reregisterStep, hch]
  · exact controllerLifecycle_eq
  · intro tracked init updates k
    rw [controllerLifecycle_eq, disposeCount_canonicalTrace, registerCount_canonicalTrace]
    split_ifs <;> omega
  · intro tracked init updates n
    rw [controllerLifecycle_eq]
    exact canonicalTrace_prefix_active _ _ _

/-- Closed witness for C8: a snapshot differing only in the untracked field
foo triggers no registration (mirrors the test case of util.test.ts). -/
theorem C8_reregister_on_change_witness :
    (∀ f ∈ ["bar"], getField [("foo", "1"), ("bar", "2")] f
        = getField [("foo", "9"), ("bar", "2")] f)
    ∧ reregisterStep ["bar"]
        { snapshot := [("foo", "1"), ("bar", "2")], handle := 0 }
        [("foo", "9"), ("bar", "2")]
      = ({ snapshot := [("foo", "1"), ("bar", "2")], handle := 0 }, []) :=
  ⟨by decide,
    C8_reregister_on_change.1 ["bar"]
      { snapshot := [("foo", "1"), ("bar", "2")], handle := 0 }
      [("foo", "9"), ("bar", "2")] (by decide)⟩

end CodeIntel
